import Mathlib

/-!
Verification of the raytracing_weekend renderer.

The repository's `f64` arithmetic is modelled over `ℝ`; `u64`/`u32`
counters are modelled as `ℕ` (with explicit wrapping modulo `2 ^ 64`
where the unsigned subtraction of the source matters).

Source of the definitions: `src/math.rs` (the `Vec3`/`Ray` algebra) and
`src/bin/sandbox.rs` (the integrator `ray_color` and the render loop).
The `World`, `Material` and hit-record types are consumed by the
integrator but their code is not part of the given sources; they are
modelled from the spec as abstract interfaces.
-/

noncomputable section

/-- Vec3 from `src/math.rs`: three `f64` components, modelled over `ℝ`. -/
@[ext]
structure Vec3 where
  x : ℝ
  y : ℝ
  z : ℝ

namespace Vec3

/-- Vec3::ZERO. -/
def ZERO : Vec3 := ⟨0, 0, 0⟩

/-- Vec3::ONE. -/
def ONE : Vec3 := ⟨1, 1, 1⟩

/-- Vec3::dot. -/
def dot (v w : Vec3) : ℝ := v.x * w.x + v.y * w.y + v.z * w.z

/-- Vec3::squared_norm: `self.dot(self)`. -/
def squared_norm (v : Vec3) : ℝ := v.dot v

/-- Vec3::norm: `self.squared_norm().sqrt()`. -/
def norm (v : Vec3) : ℝ := Real.sqrt v.squared_norm

/-- impl Add for Vec3: componentwise addition. -/
def add (v w : Vec3) : Vec3 := ⟨v.x + w.x, v.y + w.y, v.z + w.z⟩

/-- impl Sub for Vec3: componentwise subtraction. -/
def sub (v w : Vec3) : Vec3 := ⟨v.x - w.x, v.y - w.y, v.z - w.z⟩

/-- impl Neg for Vec3: componentwise negation. -/
def negate (v : Vec3) : Vec3 := ⟨-v.x, -v.y, -v.z⟩

/-- impl Mul for Vec3 (Vec3 * Vec3): componentwise product, used for color tinting. -/
def cmul (v w : Vec3) : Vec3 := ⟨v.x * w.x, v.y * w.y, v.z * w.z⟩

/-- impl Mul of f64 for Vec3 (`v * s`): each component times the scalar. -/
def mulScalar (v : Vec3) (s : ℝ) : Vec3 := ⟨v.x * s, v.y * s, v.z * s⟩

/-- impl Div of f64 for Vec3 (`v / s`): each component divided by the scalar. -/
def divScalar (v : Vec3) (s : ℝ) : Vec3 := ⟨v.x / s, v.y / s, v.z / s⟩

end Vec3

/-- impl Mul of Vec3 for f64 (`s * v`): the source delegates to `rhs.mul(self)`,
that is to `Vec3::mul` with the operands swapped. -/
def f64MulVec3 (s : ℝ) (v : Vec3) : Vec3 := v.mulScalar s

instance : Add Vec3 := ⟨Vec3.add⟩

instance : Sub Vec3 := ⟨Vec3.sub⟩

instance : Neg Vec3 := ⟨Vec3.negate⟩

instance : Mul Vec3 := ⟨Vec3.cmul⟩

instance : HMul Vec3 ℝ Vec3 := ⟨Vec3.mulScalar⟩

instance : SMul ℝ Vec3 := ⟨f64MulVec3⟩

instance : HDiv Vec3 ℝ Vec3 := ⟨Vec3.divScalar⟩

namespace Vec3

/-- Vec3::normalize: `self / self.norm()`. -/
def normalize (v : Vec3) : Vec3 := v / v.norm

/-- Vec3::refract from `src/math.rs`, translated with Rust's operator
precedence: `-self.dot(n).min(1.0)` parses as `-(self.dot(n).min(1.0))`,
so `cos_theta = -(min (v.dot n) 1)`. -/
def refract (v n : Vec3) (eta1 eta2 : ℝ) : Vec3 :=
  let cos_theta := -(min (v.dot n) 1)
  let perp := (eta1 / eta2) • (v + cos_theta • n)
  let parallel := (-(Real.sqrt |1 - perp.squared_norm|)) • n
  perp + parallel

end Vec3

/-- vec3 free constructor from `src/math.rs`. -/
def vec3 (x y z : ℝ) : Vec3 := ⟨x, y, z⟩

/-- Modelled from the spec: the clamp the spec attributes to `refract`,
`cos_theta = min(-dot(v,n), 1.0)`, with the rest of the Snell
decomposition exactly as in the source. For comparison with
`Vec3.refract`. -/
def refractSpecClamp (v n : Vec3) (eta1 eta2 : ℝ) : Vec3 :=
  let cos_theta := min (-(v.dot n)) 1
  let perp := (eta1 / eta2) • (v + cos_theta • n)
  let parallel := (-(Real.sqrt |1 - perp.squared_norm|)) • n
  perp + parallel

/-- The perpendicular component computed inside `Vec3.refract`. -/
def refractPerp (v n : Vec3) (eta1 eta2 : ℝ) : Vec3 :=
  (eta1 / eta2) • (v + (-(min (v.dot n) 1)) • n)

/-- The argument handed to `sqrt` inside `Vec3.refract`:
`(1.0 - perp.squared_norm()).abs()`. -/
def refractSqrtArg (v n : Vec3) (eta1 eta2 : ℝ) : ℝ :=
  |1 - (refractPerp v n eta1 eta2).squared_norm|

/-- Ray from `src/math.rs`. -/
structure Ray where
  origin : Vec3
  dir : Vec3

/-- Modelled from the spec: the geometric part of a hit record — point,
outward unit normal and ray parameter. The hit-record code itself is not
among the given sources. -/
structure HitGeom where
  point : Vec3
  normal : Vec3
  t : ℝ

/-- Modelled from the spec: a material is its scatter behavior,
`scatter(ray_in, hit) -> Option<(attenuation, scattered)>`; attenuation
(a Color) is modelled directly as a Vec3. The material code is not among
the given sources. -/
structure Material where
  scatter : Ray → HitGeom → Option (Vec3 × Ray)

/-- Modelled from the spec: a hit record pairs the geometric data with a
reference to the material of the hit object. -/
structure HitRecord where
  geom : HitGeom
  mat : Material

/-- Modelled from the spec: a world answers the nearest-hit query
`hit(ray, t_min, t_max) -> Option<HitRecord>`; `t_max` is an extended
real so that the integrator's `f64::INFINITY` argument is representable. -/
structure World where
  hit : Ray → ℝ → EReal → Option HitRecord

/-- ray_color from `src/bin/sandbox.rs`. The `u64` depth is modelled as
`ℕ`: the guard `depth <= 0` on an unsigned counter is `depth = 0`, and
the decrement `depth - 1` is reached only in the `depth = d + 1` arm,
where it equals `d`. -/
def ray_color (world : World) : Ray → ℕ → Vec3
  | _, 0 => Vec3.ZERO
  | r, d + 1 =>
    match world.hit r 0.001 ⊤ with
    | some record =>
      match record.mat.scatter r record.geom with
      | some (attenuation, scattered) =>
          attenuation * ray_color world scattered d
      | none => Vec3.ZERO
    | none =>
      let unit := r.dir.normalize
      let t := 0.5 * (unit.y + 1)
      (1 - t) • Vec3.ONE + t • vec3 0.5 0.7 1.0

/-- Wrapping `u64` decrement `depth - 1` as release-mode Rust computes
it: subtraction modulo `2 ^ 64`. -/
def u64SubOne (a : ℕ) : ℕ := (a + (2 ^ 64 - 1)) % 2 ^ 64

/-- ray_color with the depth counter treated as a genuine `u64`: the
terminal check `depth <= 0` is evaluated first and the decrement wraps
modulo `2 ^ 64`; an explicit fuel argument bounds the recursion so that
the definition is total independently of the wrapping arithmetic. -/
def ray_color_u64 (world : World) : ℕ → Ray → ℕ → Vec3
  | 0, _, _ => Vec3.ZERO
  | fuel + 1, r, depth =>
    if depth = 0 then Vec3.ZERO
    else
      match world.hit r 0.001 ⊤ with
      | some record =>
        match record.mat.scatter r record.geom with
        | some (attenuation, scattered) =>
            attenuation * ray_color_u64 world fuel scattered (u64SubOne depth)
        | none => Vec3.ZERO
      | none =>
        let unit := r.dir.normalize
        let t := 0.5 * (unit.y + 1)
        (1 - t) • Vec3.ONE + t • vec3 0.5 0.7 1.0

/-- A world whose hit query always fails: every ray misses. -/
def emptyWorld : World := ⟨fun _ _ _ => none⟩

/-- A material that absorbs every ray. -/
def absorbMat : Material := ⟨fun _ _ => none⟩

/-- A fixed hit record: origin point, unit normal +y, parameter 1. -/
def hitRec (m : Material) : HitRecord := ⟨⟨Vec3.ZERO, vec3 0 1 0, 1⟩, m⟩

/-- A world where every hit query reports `hitRec m`. -/
def allHitWorld (m : Material) : World := ⟨fun _ _ _ => some (hitRec m)⟩

/-- A fixed test ray pointing straight up. -/
def upRay : Ray := ⟨Vec3.ZERO, vec3 0 1 0⟩

/-- Normalized image-plane coordinate computed by the render loop in
`src/bin/sandbox.rs`: `(x as f64 + random()) / ((width - 1) as f64)`,
with `x : u32` the pixel column, `w : u32` the image width and `j` the
jitter drawn from `[0,1)`. The `u32` subtraction `w - 1` is truncated
(`ℕ` subtraction) before the cast to `f64`. -/
def uCoord (w x : ℕ) (j : ℝ) : ℝ := ((x : ℝ) + j) / ((w - 1 : ℕ) : ℝ)

/-- One scanline of the render stage in `src/bin/sandbox.rs`: the
data-parallel map over `x ∈ 0..width`, with the per-pixel sampling
computation abstracted as `pixel`. Rayon's ordered parallel `collect`
is deterministic in the iteration index, so the row is modelled as the
map indexed by x, independent of task completion order. -/
def renderRow {α : Type*} (width : ℕ) (pixel : ℕ → ℕ → α) (y : ℕ) : List α :=
  (List.range width).map fun x => pixel x y

/-- The render stage's output buffer: the rows `y = 0..height` appended
into the buffer in scanline order (`buffer.append(&mut line)` inside the
sequential `for y` loop). -/
def renderBuffer {α : Type*} (width height : ℕ) (pixel : ℕ → ℕ → α) : List α :=
  (List.range height).flatMap (renderRow width pixel)

end

namespace Vec3

@[simp] theorem add_x (v w : Vec3) : (v + w).x = v.x + w.x := rfl

@[simp] theorem add_y (v w : Vec3) : (v + w).y = v.y + w.y := rfl

@[simp] theorem add_z (v w : Vec3) : (v + w).z = v.z + w.z := rfl

@[simp] theorem sub_x (v w : Vec3) : (v - w).x = v.x - w.x := rfl

@[simp] theorem sub_y (v w : Vec3) : (v - w).y = v.y - w.y := rfl

@[simp] theorem sub_z (v w : Vec3) : (v - w).z = v.z - w.z := rfl

@[simp] theorem cmul_x (v w : Vec3) : (v * w).x = v.x * w.x := rfl

@[simp] theorem cmul_y (v w : Vec3) : (v * w).y = v.y * w.y := rfl

@[simp] theorem cmul_z (v w : Vec3) : (v * w).z = v.z * w.z := rfl

@[simp] theorem smul_x (s : ℝ) (v : Vec3) : (s • v).x = v.x * s := rfl

@[simp] theorem smul_y (s : ℝ) (v : Vec3) : (s • v).y = v.y * s := rfl

@[simp] theorem smul_z (s : ℝ) (v : Vec3) : (s • v).z = v.z * s := rfl

@[simp] theorem div_x (v : Vec3) (s : ℝ) : (v / s).x = v.x / s := rfl

@[simp] theorem div_y (v : Vec3) (s : ℝ) : (v / s).y = v.y / s := rfl

@[simp] theorem div_z (v : Vec3) (s : ℝ) : (v / s).z = v.z / s := rfl

end Vec3

/-- C10: scalar multiplication of Vec3 is commutative in operand order:
`s * v` (the f64-left impl) equals `v * s` (the Vec3-left impl) and both
equal the componentwise product `(s*v.x, s*v.y, s*v.z)`. -/
theorem f64MulVec3_comm (s : ℝ) (v : Vec3) :
    f64MulVec3 s v = v.mulScalar s ∧ f64MulVec3 s v = ⟨s * v.x, s * v.y, s * v.z⟩ :=
  ⟨rfl, by ext <;> simp [f64MulVec3, Vec3.mulScalar, mul_comm]⟩

/-- C9: the argument of the square root inside `refract` is an absolute
value, hence nonnegative, for every input — including total internal
reflection where the perpendicular component's squared norm exceeds 1 —
and `refract` is exactly the perpendicular component plus
`-(sqrt of that argument)` times the normal. -/
theorem refract_sqrtArg_nonneg (v n : Vec3) (eta1 eta2 : ℝ) :
    0 ≤ refractSqrtArg v n eta1 eta2 ∧
      Vec3.refract v n eta1 eta2 =
        refractPerp v n eta1 eta2 +
          (-(Real.sqrt (refractSqrtArg v n eta1 eta2))) • n :=
  ⟨abs_nonneg _, rfl⟩

/-- C5 (counterexample evaluation): at `v = (1,-2,0)`, `n = (0,1,0)`,
`eta1 = eta2 = 1`, the source's `refract` — whose `cos_theta` is
`-(min (v.dot n) 1) = 2` by Rust precedence — returns `(1,0,0)`,
while the spec's clamp `cos_theta = min (-(v.dot n)) 1 = 1` yields
`(1,-2,0)`; the two disagree. -/
theorem refract_precedence_slip :
    Vec3.refract (vec3 1 (-2) 0) (vec3 0 1 0) 1 1 = vec3 1 0 0 ∧
      refractSpecClamp (vec3 1 (-2) 0) (vec3 0 1 0) 1 1 = vec3 1 (-2) 0 ∧
      vec3 1 0 0 ≠ vec3 1 (-2) 0 := by
  refine ⟨?_, ?_, ?_⟩
  · ext <;> norm_num [Vec3.refract, Vec3.squared_norm, Vec3.dot, vec3, min_def]
  · ext <;> norm_num [refractSpecClamp, Vec3.squared_norm, Vec3.dot, vec3, min_def]
  · intro h
    have hy := congrArg Vec3.y h
    norm_num [vec3] at hy

/-- C1: `ray_color` called with depth 0 returns the zero vector for
every world and every ray, regardless of scene content. -/
theorem ray_color_depth_zero (world : World) (r : Ray) :
    ray_color world r 0 = Vec3.ZERO := rfl

/-- C2: when the hit query at `t ∈ [0.001, ∞)` reports a record, the
integrator returns black if the record's material absorbs the ray
(scatter = none), and `attenuation * ray_color scattered (depth - 1)`
if the material scatters. -/
theorem ray_color_hit_cases (world : World) (r : Ray) (d : ℕ) (record : HitRecord)
    (h : world.hit r 0.001 ⊤ = some record) :
    (record.mat.scatter r record.geom = none →
        ray_color world r (d + 1) = Vec3.ZERO) ∧
      ∀ attenuation scattered,
        record.mat.scatter r record.geom = some (attenuation, scattered) →
          ray_color world r (d + 1) = attenuation * ray_color world scattered d := by
  constructor
  · intro hs
    simp [ray_color, h, hs]
  · intro attenuation scattered hs
    simp [ray_color, h, hs]

/-- C2 witness: in a world whose hit record carries the absorbing
material, `ray_color` at depth 1 is the zero vector. -/
theorem ray_color_hit_cases_witness :
    (allHitWorld absorbMat).hit upRay 0.001 ⊤ = some (hitRec absorbMat) ∧
      ray_color (allHitWorld absorbMat) upRay 1 = Vec3.ZERO :=
  ⟨rfl, (ray_color_hit_cases (allHitWorld absorbMat) upRay 0 (hitRec absorbMat) rfl).1 rfl⟩

/-- C3: on a ray with non-degenerate direction that misses all geometry,
`ray_color` at positive depth returns the gradient
`(1-t)*(1,1,1) + t*(0.5,0.7,1.0)` with `t = 0.5*(unit.y + 1)` for the
normalized direction, and `t ∈ [0,1]`, so the value lies on the segment
between white and sky-blue. -/
theorem ray_color_miss_gradient (world : World) (r : Ray) (d : ℕ)
    (h : world.hit r 0.001 ⊤ = none) (hdir : 0 < r.dir.squared_norm) :
    ∃ t : ℝ, t = 0.5 * (r.dir.normalize.y + 1) ∧ 0 ≤ t ∧ t ≤ 1 ∧
      ray_color world r (d + 1) = (1 - t) • Vec3.ONE + t • vec3 0.5 0.7 1.0 := by
  have hnorm : 0 < r.dir.norm := Real.sqrt_pos.mpr hdir
  have hy2 : r.dir.y ^ 2 ≤ r.dir.squared_norm := by
    have hx := sq_nonneg r.dir.x
    have hz := sq_nonneg r.dir.z
    simp only [Vec3.squared_norm, Vec3.dot]
    nlinarith
  have hyabs : |r.dir.y| ≤ r.dir.norm := by
    calc |r.dir.y| = Real.sqrt (r.dir.y ^ 2) := (Real.sqrt_sq_eq_abs _).symm
      _ ≤ Real.sqrt r.dir.squared_norm := Real.sqrt_le_sqrt hy2
      _ = r.dir.norm := rfl
  have hunit : |r.dir.normalize.y| ≤ 1 := by
    have : r.dir.normalize.y = r.dir.y / r.dir.norm := rfl
    rw [this, abs_div, abs_of_pos hnorm]
    exact div_le_one_of_le₀ hyabs hnorm.le
  obtain ⟨hlo, hhi⟩ := abs_le.mp hunit
  refine ⟨0.5 * (r.dir.normalize.y + 1), rfl, by linarith, by linarith, ?_⟩
  simp [ray_color, h]

/-- C3 witness: the up ray in the empty world at depth 1 hits the
gradient branch with `t = 1`. -/
theorem ray_color_miss_gradient_witness :
    emptyWorld.hit upRay 0.001 ⊤ = none ∧ 0 < upRay.dir.squared_norm ∧
      ∃ t : ℝ, t = 0.5 * (upRay.dir.normalize.y + 1) ∧ 0 ≤ t ∧ t ≤ 1 ∧
        ray_color emptyWorld upRay 1 = (1 - t) • Vec3.ONE + t • vec3 0.5 0.7 1.0 :=
  ⟨rfl, by norm_num [upRay, vec3, Vec3.squared_norm, Vec3.dot],
    ray_color_miss_gradient emptyWorld upRay 0 rfl
      (by norm_num [upRay, vec3, Vec3.squared_norm, Vec3.dot])⟩

/-- C6: `ray_color` is total; with the depth counter computed in genuine
wrapping `u64` arithmetic and the terminal check `depth <= 0` evaluated
first, the recursion terminates within `depth` steps (any fuel at least
`depth` gives the same value as the structurally recursive definition),
because the decrement is reached only when `depth ≥ 1`, where the
wrapping subtraction agrees with the exact one and strictly decreases. -/
theorem ray_color_u64_agrees (world : World) (r : Ray) (d fuel : ℕ)
    (hd : d < 2 ^ 64) (hf : d ≤ fuel) :
    ray_color_u64 world fuel r d = ray_color world r d := by
  induction fuel generalizing r d with
  | zero =>
    have h0 : d = 0 := Nat.le_zero.mp hf
    subst h0; rfl
  | succ fuel ih =>
    cases d with
    | zero => rfl
    | succ k =>
      have hsub : u64SubOne (k + 1) = k := by
        unfold u64SubOne
        omega
      cases hh : world.hit r 0.001 ⊤ with
      | none => simp [ray_color_u64, ray_color, hh]
      | some record =>
        cases hs : record.mat.scatter r record.geom with
        | none => simp [ray_color_u64, ray_color, hh, hs]
        | some p =>
          obtain ⟨attenuation, scattered⟩ := p
          have hrec := ih scattered k (by omega) (by omega)
          simp [ray_color_u64, ray_color, hh, hs, hsub, hrec]

/-- C6 witness: at depth 1 with fuel 1 in the empty world, the wrapping
u64 integrator agrees with the structural one. -/
theorem ray_color_u64_agrees_witness :
    (1 : ℕ) < 2 ^ 64 ∧ (1 : ℕ) ≤ 1 ∧
      ray_color_u64 emptyWorld 1 upRay 1 = ray_color emptyWorld upRay 1 :=
  ⟨by norm_num, le_refl 1,
    ray_color_u64_agrees emptyWorld upRay 1 1 (by norm_num) (le_refl 1)⟩

/-- C4 counterexample: with width 2, pixel column x = 1 (in range 0..2)
and jitter 1/2 ∈ [0,1), the renderer computes
u = (1 + 1/2)/(2 - 1) = 3/2, which is not in [0,1]. -/
theorem uCoord_exceeds_one :
    (1 : ℕ) < 2 ∧ (0 : ℝ) ≤ 1 / 2 ∧ (1 / 2 : ℝ) < 1 ∧ ¬ uCoord 2 1 (1 / 2) ≤ 1 := by
  norm_num [uCoord]

/-- C4 amended: for width ≥ 2, x ∈ 0..width and jitter ∈ [0,1), the
coordinate u = (x + jitter)/(width - 1) satisfies 0 ≤ u and
u < 1 + 1/(width - 1); it is within [0,1] for every column except
possibly the last (x = width - 1), where it can exceed 1 by less than
1/(width - 1). The same holds for v in the height direction. -/
theorem uCoord_bounds (w x : ℕ) (j : ℝ) (hw : 2 ≤ w) (hx : x < w)
    (hj0 : 0 ≤ j) (hj1 : j < 1) :
    0 ≤ uCoord w x j ∧ uCoord w x j < 1 + 1 / ((w : ℝ) - 1) ∧
      (x < w - 1 → uCoord w x j ≤ 1) := by
  have hcast : ((w - 1 : ℕ) : ℝ) = (w : ℝ) - 1 := by
    have : (1 : ℕ) ≤ w := by omega
    push_cast [this]
    ring
  have hD : 0 < (w : ℝ) - 1 := by
    have : (2 : ℝ) ≤ (w : ℝ) := by exact_mod_cast hw
    linarith
  refine ⟨?_, ?_, ?_⟩
  · unfold uCoord
    rw [hcast]
    exact div_nonneg (by positivity) hD.le
  · unfold uCoord
    rw [hcast]
    have hxw : (x : ℝ) ≤ (w : ℝ) - 1 := by
      have : (x : ℝ) + 1 ≤ (w : ℝ) := by exact_mod_cast hx
      linarith
    have hnum : (x : ℝ) + j < (w : ℝ) := by linarith
    have hval : (w : ℝ) / ((w : ℝ) - 1) = 1 + 1 / ((w : ℝ) - 1) := by
      field_simp
    calc ((x : ℝ) + j) / ((w : ℝ) - 1)
        < (w : ℝ) / ((w : ℝ) - 1) := (div_lt_div_iff_of_pos_right hD).mpr hnum
      _ = 1 + 1 / ((w : ℝ) - 1) := hval
  · intro hx1
    unfold uCoord
    rw [hcast]
    rw [div_le_one hD]
    have : (x : ℝ) ≤ (w : ℝ) - 2 := by
      have : (x : ℝ) + 2 ≤ (w : ℝ) := by exact_mod_cast (by omega : x + 2 ≤ w)
      linarith
    linarith

/-- C4 witness: width 2, column 0, jitter 1/2 gives u = 1/2 within all
amended bounds. -/
theorem uCoord_bounds_witness :
    (2 : ℕ) ≤ 2 ∧ (0 : ℕ) < 2 ∧ (0 : ℝ) ≤ 1 / 2 ∧ (1 / 2 : ℝ) < 1 ∧
      (0 ≤ uCoord 2 0 (1 / 2) ∧ uCoord 2 0 (1 / 2) < 1 + 1 / ((2 : ℝ) - 1) ∧
        (0 < 2 - 1 → uCoord 2 0 (1 / 2) ≤ 1)) :=
  ⟨le_refl 2, by norm_num, by norm_num, by norm_num,
    uCoord_bounds 2 0 (1 / 2) (le_refl 2) (by norm_num) (by norm_num) (by norm_num)⟩

/-- Unfolding a render buffer by its last row. -/
theorem renderBuffer_succ {α : Type*} (width h : ℕ) (pixel : ℕ → ℕ → α) :
    renderBuffer width (h + 1) pixel =
      renderBuffer width h pixel ++ renderRow width pixel h := by
  simp [renderBuffer, List.range_succ]

/-- Length of the render buffer: height * width. -/
theorem renderBuffer_length {α : Type*} (width height : ℕ) (pixel : ℕ → ℕ → α) :
    (renderBuffer width height pixel).length = height * width := by
  induction height with
  | zero => simp [renderBuffer]
  | succ h ih =>
    rw [renderBuffer_succ, List.length_append, ih]
    simp [renderRow]
    ring

/-- C8: the output buffer position of pixel (x, y) is exactly
y * width + x, determined solely by (x, y): rows are appended in
scanline order and each row is the index-ordered result of the
data-parallel map, independent of completion order. -/
theorem renderBuffer_position {α : Type*} (width height x y : ℕ) (pixel : ℕ → ℕ → α)
    (hx : x < width) (hy : y < height) :
    (renderBuffer width height pixel)[y * width + x]? = some (pixel x y) := by
  induction height with
  | zero => omega
  | succ h ih =>
    rw [renderBuffer_succ]
    rcases Nat.lt_or_ge y h with hyh | hyh
    · have hlen : y * width + x < (renderBuffer width h pixel).length := by
        rw [renderBuffer_length]
        calc y * width + x < y * width + width := by omega
          _ = (y + 1) * width := by ring
          _ ≤ h * width := Nat.mul_le_mul_right width (by omega)
      rw [List.getElem?_append_left hlen]
      exact ih hyh
    · have hy' : y = h := by omega
      subst hy'
      have hlen : (renderBuffer width y pixel).length ≤ y * width + x := by
        rw [renderBuffer_length]
        omega
      rw [List.getElem?_append_right hlen]
      rw [renderBuffer_length]
      have hidx : y * width + x - y * width = x := by omega
      rw [hidx]
      simp [renderRow, List.getElem?_range, hx]

/-- C8 witness: in a 2×2 buffer the pixel (1, 1) sits at position 3. -/
theorem renderBuffer_position_witness :
    (1 : ℕ) < 2 ∧ (1 : ℕ) < 2 ∧
      (renderBuffer 2 2 (fun x y => (x, y)))[1 * 2 + 1]? = some (1, 1) :=
  ⟨by norm_num, by norm_num,
    renderBuffer_position 2 2 1 1 (fun x y => (x, y)) (by norm_num) (by norm_num)⟩
